import Mathlib

/-!
Verification of the JMESPath value-navigation primitives (`src/src/lib.rs`).

The development shallowly embeds the library: `serde_json::Value` becomes an
inductive `Value` (objects as association lists in iteration order), `JMESSlice`
and `ParseJMESSliceError` are carried over directly, the `FromStr` parser is
translated with the anchored regex modelled as a colon-split (the component
sub-languages contain no colon, so the anchored match is equivalent), and the
`isize` parses inside the `expect` calls are modelled explicitly so that an
overflow — a Rust panic — surfaces as the `none` outcome of `from_str`.
The stride-slicing engine itself lives in the external `slyce` crate, which is
not under src/; it is modelled from the spec (see `resolveBound`).
-/

set_option autoImplicit false

namespace JmespathNative

/-- Model of `serde_json::Value`: null, booleans, numbers, strings, arrays and
objects. Objects are association lists listing the entries in the map's
iteration order. Numbers are modelled as integers, which covers every value the
primitives are exercised on; no primitive inspects a number. -/
inductive Value where
  | null
  | bool (b : Bool)
  | num (n : Int)
  | str (s : String)
  | arr (elems : List Value)
  | obj (entries : List (String × Value))
deriving Repr

/-- Model of `Value::is_null`. -/
def Value.is_null : Value → Bool
  | .null => true
  | _ => false

/-- Model of `Value::is_array`. -/
def Value.is_array : Value → Bool
  | .arr _ => true
  | _ => false

/-- Model of `Value::is_object`. -/
def Value.is_object : Value → Bool
  | .obj _ => true
  | _ => false

instance (v : Value) : Decidable (v = Value.null) :=
  match v with
  | .null => isTrue rfl
  | .bool _ => isFalse (fun h => Value.noConfusion h)
  | .num _ => isFalse (fun h => Value.noConfusion h)
  | .str _ => isFalse (fun h => Value.noConfusion h)
  | .arr _ => isFalse (fun h => Value.noConfusion h)
  | .obj _ => isFalse (fun h => Value.noConfusion h)

/-- Model of `JMESSlice`: optional start and end (`isize`) and an optional
non-zero step (`NonZeroIsize`), the zero exclusion carried as a subtype. -/
structure JMESSlice where
  start : Option Int
  end_ : Option Int
  step : Option {z : Int // z ≠ 0}

/-- Model of `JMESSlice::default()`: all three fields absent. -/
def JMESSlice.default : JMESSlice := ⟨none, none, none⟩

/-- Model of `ParseJMESSliceError`. -/
inductive ParseJMESSliceError where
  | InvalidFormat
  | StepNotAllowedToBeZero
deriving DecidableEq, Repr

/-- An ASCII decimal digit, the `\d` of the slice regex. -/
def isDigitChar (c : Char) : Bool := '0' ≤ c && c ≤ '9'

/-- A non-empty run of digits: the regex fragment `\d+`. -/
def isDigits (cs : List Char) : Bool := !cs.isEmpty && cs.all isDigitChar

/-- The regex fragment `-?\d+`: an optionally negated decimal integer literal. -/
def isIntLit : List Char → Bool
  | '-' :: rest => isDigits rest
  | cs => isDigits cs

/-- Numeric value of a digit run. -/
def digitsVal (cs : List Char) : Nat :=
  cs.foldl (fun acc c => acc * 10 + (c.toNat - 48)) 0

/-- Numeric value of a `-?\d+` literal. -/
def intLitVal : List Char → Int
  | '-' :: rest => -(digitsVal rest : Int)
  | cs => (digitsVal cs : Int)

/-- Least `isize` value on a 64-bit target. -/
def isizeMin : Int := -(2 ^ 63)

/-- Greatest `isize` value on a 64-bit target. -/
def isizeMax : Int := 2 ^ 63 - 1

/-- Whether a mathematical integer is representable as an `isize`, i.e. whether
`str::parse::<isize>` succeeds on its decimal spelling. -/
def fitsIsize (z : Int) : Bool := decide (isizeMin ≤ z) && decide (z ≤ isizeMax)

/-- Model of the `option_isize` closure inside `from_str`: an empty capture is
`None`, otherwise the text is fed to `parse::<isize>().expect(..)`. The outer
`none` models the panic of that `expect` when the digits overflow `isize`;
`some none` is an absent component and `some (some z)` a parsed value. -/
def option_isize (cs : List Char) : Option (Option Int) :=
  if cs.isEmpty then some none
  else if fitsIsize (intLitVal cs) then some (some (intLitVal cs)) else none

/-- Split a character list at every colon; `n` colons yield `n + 1` parts. -/
def splitColons : List Char → List (List Char)
  | [] => [[]]
  | c :: rest =>
    if c = ':' then [] :: splitColons rest
    else
      match splitColons rest with
      | [] => [[c]]
      | p :: ps => (c :: p) :: ps

/-- Model of the anchored regex `^(-?\d+)?:(-?\d+)?(:(-?\d+)?)?$` used by
`from_str`. Every component sub-language is colon-free, so an anchored match is
equivalent to: splitting the input on colons yields exactly two or three parts,
each empty or a `-?\d+` literal. Returns the three captures (an absent third
capture is the empty string, exactly as `regex_captures!` hands it over). -/
def regexParts (s : String) : Option (List Char × List Char × List Char) :=
  match splitColons s.data with
  | [a, b] =>
    if (a.isEmpty || isIntLit a) && (b.isEmpty || isIntLit b) then some (a, b, [])
    else none
  | [a, b, c] =>
    if (a.isEmpty || isIntLit a) && (b.isEmpty || isIntLit b) && (c.isEmpty || isIntLit c) then
      some (a, b, c)
    else none
  | _ => none

/-- Model of `<JMESSlice as FromStr>::from_str`. A failed regex match is the
`InvalidFormat` error; the three captures are then converted in the evaluation
order of the Rust struct literal (start, end, step), each conversion able to
panic (outer `none`) on an `isize` overflow; a present zero step is the
`StepNotAllowedToBeZero` error. -/
def from_str (s : String) : Option (Except ParseJMESSliceError JMESSlice) :=
  match regexParts s with
  | none => some (.error .InvalidFormat)
  | some (a, b, c) =>
    match option_isize a with
    | none => none
    | some start =>
      match option_isize b with
      | none => none
      | some end_ =>
        match option_isize c with
        | none => none
        | some stepv =>
          match stepv with
          | none => some (.ok ⟨start, end_, none⟩)
          | some i =>
            if h : i = 0 then some (.error .StepNotAllowedToBeZero)
            else some (.ok ⟨start, end_, some ⟨i, h⟩⟩)

/-- Model of `slyce::Index`. -/
inductive Index where
  | head (u : Nat)
  | tail (u : Nat)
  | default

/-- Modelled from the spec: the repository delegates stride slicing to the
external `slyce` crate, whose source is not under src/. Bound resolution per
the spec's Python-style rules: `tail u` addresses from the rear (`len - u`) and
an out-of-range bound — on either side — clamps to the nearest valid boundary
for the traversal direction rather than producing null. -/
def resolveBound (len : Nat) (backwards : Bool) (dflt : Int) : Index → Int
  | .head u => if (len : Int) ≤ u then (if backwards then (len : Int) - 1 else len) else u
  | .tail u => if (len : Int) - u < 0 then (if backwards then -1 else 0) else (len : Int) - u
  | .default => dflt

/-- Modelled from the spec: number of indices visited when stepping from
`start` towards `stop` (exclusive) by `step`. -/
def strideCount (start stop step : Int) : Nat :=
  if 0 < step then
    if start < stop then ((stop - start - 1) / step).toNat + 1 else 0
  else if step < 0 then
    if stop < start then ((start - stop - 1) / (-step)).toNat + 1 else 0
  else 0

/-- Modelled from the spec: `slyce::Slice::apply` over an array. An absent step
defaults to 1; a negative step makes the absent start default to the last
element and the absent end to before the first element, and traversal runs from
high index to low index. Every visited index is in range, so the `getD` default
is never taken. -/
def slyce_apply (startIdx endIdx : Index) (step : Option Int) (elems : List Value) :
    List Value :=
  let st := step.getD 1
  let backwards := st < 0
  let len := elems.length
  let start := resolveBound len backwards (if backwards then (len : Int) - 1 else 0) startIdx
  let stop := resolveBound len backwards (if backwards then -1 else (len : Int)) endIdx
  (List.range (strideCount start stop st)).map
    (fun (k : Nat) => (elems.get? (start + (k : Int) * st).toNat).getD .null)

/-- The conversion `JMESSlice::slice` performs on each bound before calling
`slyce`: a negative `isize` becomes `Index::Tail` of its magnitude, a
non-negative one `Index::Head`, an absent one `Index::Default`. -/
def toIndex : Option Int → Index
  | some i => if i < 0 then .tail i.natAbs else .head i.natAbs
  | none => .default

/-- Model of `JMESPath::identify` for `Value`: `map.remove(key).unwrap_or(Null)`
on objects, `Null` otherwise. -/
def Value.identify (v : Value) (key : String) : Value :=
  match v with
  | .obj entries => (entries.lookup key).getD .null
  | _ => .null

/-- Model of `JMESPath::index` for `Value`: a negative index resolves through
`len.checked_sub(i.unsigned_abs())` (rear addressing, `Null` on underflow); an
in-bounds resolved offset yields the element, anything else `Null`. -/
def Value.index (v : Value) (i : Int) : Value :=
  match v with
  | .arr elems =>
    let idx : Option Nat :=
      if i < 0 then
        if i.natAbs ≤ elems.length then some (elems.length - i.natAbs) else none
      else some i.natAbs
    match idx with
    | none => .null
    | some n => if n < elems.length then (elems.get? n).getD .null else .null
  | _ => .null

/-- Model of `JMESPath::slice` for `Value`: bounds converted through `toIndex`,
the step unwrapped from `NonZeroIsize`, then the `slyce` engine applied. -/
def Value.slice (v : Value) (s : JMESSlice) : Value :=
  match v with
  | .arr elems =>
    .arr (slyce_apply (toIndex s.start) (toIndex s.end_) (s.step.map Subtype.val) elems)
  | _ => .null

/-- Model of `JMESPath::list_project` for `Value`: map the projection over the
elements and keep the non-null results. -/
def Value.list_project (v : Value) (projection : Value → Value) : Value :=
  match v with
  | .arr elems => .arr ((elems.map projection).filter (fun r => !r.is_null))
  | _ => .null

/-- Model of `JMESPath::slice_project` for `Value`: on arrays, `slice` then
`list_project`; otherwise `Null`. -/
def Value.slice_project (v : Value) (s : JMESSlice) (projection : Value → Value) : Value :=
  match v with
  | .arr _ => (v.slice s).list_project projection
  | _ => .null

/-- Model of `JMESPath::object_project` for `Value`: drop the keys, map the
projection over the entry values, keep the non-null results as an array. -/
def Value.object_project (v : Value) (projection : Value → Value) : Value :=
  match v with
  | .obj entries => .arr (((entries.map Prod.snd).map projection).filter (fun r => !r.is_null))
  | _ => .null

/-- The loop body of `JMESPath::flatten`: a direct array element contributes
its own elements in place, any other element passes through. -/
def flattenElems : List Value → List Value
  | [] => []
  | .arr inner :: rest => inner ++ flattenElems rest
  | other :: rest => other :: flattenElems rest

/-- Model of `JMESPath::flatten` for `Value`. -/
def Value.flatten (v : Value) : Value :=
  match v with
  | .arr elems => .arr (flattenElems elems)
  | _ => .null

/-- Slice-literal application exactly as the repository's tests exercise it:
parse the literal with `from_str` and apply the resulting descriptor; a parse
error or a panic yields no value. -/
def sliceLit (lit : String) (v : Value) : Option Value :=
  match from_str lit with
  | some (.ok d) => some (v.slice d)
  | _ => none

/-- The `slice_example` fixture of the tests: `[0, 1, 2, 3]`. -/
def slice_example : Value := .arr [.num 0, .num 1, .num 2, .num 3]

/-- The `array` fixture of the tests: `["a","b","c","d","e","f"]`. -/
def array_fixture : Value :=
  .arr [.str "a", .str "b", .str "c", .str "d", .str "e", .str "f"]

/-- The `flatmap` fixture of the tests: `{"a":"foo","b":"bar","c":"baz"}`. -/
def flatmap : Value := .obj [("a", .str "foo"), ("b", .str "bar"), ("c", .str "baz")]

/-- The people array of the list-projection example. -/
def people : Value :=
  .arr [.obj [("first", .str "James")], .obj [("first", .str "Jacob")],
    .obj [("missing", .str "x")]]

/-- The operations object of the object-projection example. -/
def ops_fixture : Value :=
  .obj [("a", .obj [("numArgs", .num 2)]), ("b", .obj [("numArgs", .num 3)]),
    ("c", .obj [("variadic", .bool true)])]

/-- The `nested_list_example` fixture of the tests: `[[0,1],2,[3],4,[5,[6,7]]]`. -/
def nested_list_example : Value :=
  .arr [.arr [.num 0, .num 1], .num 2, .arr [.num 3], .num 4,
    .arr [.num 5, .arr [.num 6, .num 7]]]

/-- The spec's one-level reading of a flatten step: a direct array element
contributes its own elements, any other element contributes itself. -/
def flattenOne : Value → List Value
  | .arr xs => xs
  | v => [v]

/-- Reading every position of a list in order reproduces the list. -/
theorem range_map_get (l : List Value) :
    (List.range l.length).map (fun k => (l.get? k).getD .null) = l := by
  induction l with
  | nil => rfl
  | cons x xs ih =>
    rw [List.length_cons, List.range_succ_eq_map, List.map_cons, List.map_map]
    simp only [List.get?_cons_zero, Option.getD_some, Function.comp_def, Nat.succ_eq_add_one,
      List.get?_cons_succ]
    rw [ih]

/-- With an absent step, `slyce_apply` reduces to a forward unit-stride walk
between the two resolved bounds. -/
theorem slyce_apply_one_eq (l : List Value) (si ei : Index) :
    slyce_apply si ei none l =
      (List.range (strideCount (resolveBound l.length false 0 si)
          (resolveBound l.length false (l.length : Int) ei) 1)).map
        (fun (k : Nat) => (l.get? ((resolveBound l.length false 0 si) + (k : Int) * 1).toNat).getD
          .null) := rfl

/-- Walking forward by unit stride visits `stop - start` indices. -/
theorem strideCount_one (a b : Int) :
    strideCount a b 1 = (b - a).toNat := by
  unfold strideCount
  rw [if_pos (by norm_num : (0 : Int) < 1)]
  simp only [Int.ediv_one]
  split_ifs with h <;> omega

/-- A forward-resolved bound with an in-range default lands in `[0, len]`. -/
theorem resolve_forward_mem (len : Nat) (d : Int) (h0 : 0 ≤ d) (hl : d ≤ (len : Int))
    (idx : Index) :
    0 ≤ resolveBound len false d idx ∧ resolveBound len false d idx ≤ (len : Int) := by
  cases idx with
  | head u => simp only [resolveBound, Bool.false_eq_true, if_false]; split_ifs <;> omega
  | tail u => simp only [resolveBound, Bool.false_eq_true, if_false]; split_ifs <;> omega
  | default => simp only [resolveBound]; omega

/-- Characterization of the forward unit-stride slice: take up to the resolved
end, then drop up to the resolved start. -/
theorem slyce_apply_one_drop_take (l : List Value) (si ei : Index) :
    slyce_apply si ei none l =
      (l.take ((resolveBound l.length false (l.length : Int) ei).toNat)).drop
        ((resolveBound l.length false 0 si).toNat) := by
  rw [slyce_apply_one_eq]
  have hA := resolve_forward_mem l.length 0 (by omega) (by omega) si
  have hB := resolve_forward_mem l.length (l.length : Int) (by omega) (by omega) ei
  rw [strideCount_one]
  have hres := range_map_get ((l.take (resolveBound l.length false (l.length : Int) ei).toNat).drop
    (resolveBound l.length false 0 si).toNat)
  have hlen : ((l.take (resolveBound l.length false (l.length : Int) ei).toNat).drop
      (resolveBound l.length false 0 si).toNat).length =
      (resolveBound l.length false (l.length : Int) ei - resolveBound l.length false 0 si).toNat := by
    rw [List.length_drop, List.length_take]
    omega
  rw [hlen] at hres
  rw [← hres]
  apply List.map_congr_left
  intro k hk
  rw [List.mem_range] at hk
  have h1 : (resolveBound l.length false 0 si + (k : Int) * 1).toNat =
      (resolveBound l.length false 0 si).toNat + k := by omega
  rw [h1, List.get?_eq_getElem?, List.get?_eq_getElem?, List.getElem?_drop, List.getElem?_take]
  rw [if_pos (by omega)]

/-- The all-default backward slice with step `-1` visits every index from the
rear, reproducing the reversed list. -/
theorem slyce_apply_neg_one_rev (l : List Value) :
    slyce_apply .default .default (some (-1)) l = l.reverse := by
  have heq : slyce_apply .default .default (some (-1)) l =
      (List.range (strideCount ((l.length : Int) - 1) (-1) (-1))).map
        (fun (k : Nat) =>
          (l.get? (((l.length : Int) - 1) + (k : Int) * (-1)).toNat).getD .null) := rfl
  rw [heq]
  have hcount : strideCount ((l.length : Int) - 1) (-1) (-1) = l.length := by
    unfold strideCount
    norm_num
    split_ifs with h <;> omega
  rw [hcount]
  have hres := range_map_get l.reverse
  rw [List.length_reverse] at hres
  rw [← hres]
  apply List.map_congr_left
  intro k hk
  rw [List.mem_range] at hk
  have h1 : (((l.length : Int) - 1) + (k : Int) * (-1)).toNat = l.length - 1 - k := by omega
  rw [h1, List.get?_eq_getElem?, List.get?_eq_getElem?, List.getElem?_reverse hk]

/-- A value satisfies `is_null` exactly when it is the `Null` value. -/
theorem is_null_iff (v : Value) : v.is_null = true ↔ v = .null := by
  cases v <;> simp [Value.is_null]

/-- The filtering predicate of the projections keeps exactly the results that
differ from the `Null` value. -/
theorem not_is_null_eq_decide (r : Value) : (!r.is_null) = decide (r ≠ Value.null) := by
  cases r <;> rfl

/-- `flattenElems` is the one-level flattening: each element contributes
`flattenOne` of itself, in order. -/
theorem flattenElems_eq_flatMap (l : List Value) :
    flattenElems l = l.flatMap flattenOne := by
  induction l with
  | nil => rfl
  | cons x xs ih => cases x <;> simp [flattenElems, flattenOne, ih]

/-- C3: every primitive is total and null-on-mismatch: on any non-array input,
`index`, `slice`, `list_project`, `slice_project` and `flatten` return `Null`
for all parameters, and on any non-object input, `identify` and
`object_project` return `Null`. -/
theorem primitives_total_null_on_mismatch (v : Value) (key : String) (i : Int)
    (s : JMESSlice) (f : Value → Value) :
    (v.is_array = false →
      v.index i = .null ∧ v.slice s = .null ∧ v.list_project f = .null ∧
      v.slice_project s f = .null ∧ v.flatten = .null) ∧
    (v.is_object = false →
      v.identify key = .null ∧ v.object_project f = .null) := by
  constructor
  · intro hv
    cases v <;> first | exact ⟨rfl, rfl, rfl, rfl, rfl⟩ | simp [Value.is_array] at hv
  · intro hv
    cases v <;> first | exact ⟨rfl, rfl⟩ | simp [Value.is_object] at hv

/-- Witness for C3 at the concrete non-array, non-object value `42`. -/
theorem primitives_total_null_on_mismatch_witness :
    (Value.num 42).index 0 = .null ∧ (Value.num 42).slice JMESSlice.default = .null ∧
    (Value.num 42).list_project (fun v => v) = .null ∧
    (Value.num 42).slice_project JMESSlice.default (fun v => v) = .null ∧
    (Value.num 42).flatten = .null ∧
    (Value.num 42).identify "a" = .null ∧
    (Value.num 42).object_project (fun v => v) = .null := by
  have h := primitives_total_null_on_mismatch (Value.num 42) "a" 0 JMESSlice.default
    (fun v => v)
  exact ⟨(h.1 rfl).1, (h.1 rfl).2.1, (h.1 rfl).2.2.1, (h.1 rfl).2.2.2.1, (h.1 rfl).2.2.2.2,
    (h.2 rfl).1, (h.2 rfl).2⟩

/-- C4: the slice-literal parser is claimed never to abort or panic, even on
grammar-matching inputs with arbitrarily large integer components; but on the
grammar-matching input `"9223372036854775808:"` (start = 2^63, one past
`isize::MAX`) the `parse::<isize>().expect("Regex ensures valid")` call fails
with an overflow and the program panics — modelled here as the `none` outcome,
which is neither a descriptor nor one of the two typed errors. -/
theorem from_str_panics_on_overflow :
    regexParts "9223372036854775808:" = some ("9223372036854775808".data, [], []) ∧
    from_str "9223372036854775808:" = none :=
  ⟨rfl, rfl⟩

/-- C5: the parser's accepted grammar and its two errors: `"::"` is the default
descriptor, `"::0"` the zero-step error, well-formed literals parse, and
non-matching strings (no colon, too many colons, empty) are `InvalidFormat`;
however the grammar-matching literal `"::9223372036854775808"` (a present,
non-zero step one past `isize::MAX`) is not accepted with a descriptor as
claimed — the `expect` inside the parser panics, modelled as `none`. -/
theorem from_str_grammar_examples :
    from_str "::" = some (.ok JMESSlice.default) ∧
    from_str "::0" = some (.error .StepNotAllowedToBeZero) ∧
    from_str "0:1" = some (.ok ⟨some 0, some 1, none⟩) ∧
    from_str "::10" = some (.ok ⟨none, none, some ⟨10, by decide⟩⟩) ∧
    from_str "abc" = some (.error .InvalidFormat) ∧
    from_str "" = some (.error .InvalidFormat) ∧
    from_str "1:2:3:4" = some (.error .InvalidFormat) ∧
    from_str "::9223372036854775808" = none :=
  ⟨rfl, rfl, rfl, rfl, rfl, rfl, rfl, rfl⟩

/-- C6: flatten merges exactly one nesting level, in order: each direct array
element contributes its own elements in place and every other element passes
through; a second application flattens one more level, as on the fixture. -/
theorem flatten_single_level :
    (∀ (l : List Value), Value.flatten (.arr l) = .arr (l.flatMap flattenOne)) ∧
    nested_list_example.flatten =
      .arr [.num 0, .num 1, .num 2, .num 3, .num 4, .num 5, .arr [.num 6, .num 7]] ∧
    nested_list_example.flatten.flatten =
      .arr [.num 0, .num 1, .num 2, .num 3, .num 4, .num 5, .num 6, .num 7] := by
  refine ⟨fun l => ?_, rfl, rfl⟩
  show Value.arr (flattenElems l) = _
  rw [flattenElems_eq_flatMap]

/-- C7: list projection maps the transform over the elements in order and keeps
exactly the results different from `Null`, preserving relative order; on the
people fixture the entry lacking the projected field is dropped. -/
theorem list_project_drops_null :
    (∀ (l : List Value) (f : Value → Value),
      Value.list_project (.arr l) f =
        .arr ((l.map f).filter (fun r => decide (r ≠ Value.null)))) ∧
    people.list_project (fun v => v.identify "first") =
      .arr [.str "James", .str "Jacob"] := by
  constructor
  · intro l f
    exact congrArg Value.arr (List.filter_congr (fun x _ => not_is_null_eq_decide x))
  · rfl

/-- C8: slice projection is slicing followed by list projection, for every
value, descriptor and transform; on a non-array it is `Null` independently of
the transform, so the transform is never consulted. -/
theorem slice_project_refines :
    (∀ (v : Value) (s : JMESSlice) (f : Value → Value),
      v.slice_project s f = (v.slice s).list_project f) ∧
    (∀ (v : Value) (s : JMESSlice) (f g : Value → Value), v.is_array = false →
      v.slice_project s f = .null ∧ v.slice_project s f = v.slice_project s g) := by
  constructor
  · intro v s f
    cases v <;> rfl
  · intro v s f g hv
    cases v <;> first | exact ⟨rfl, rfl⟩ | simp [Value.is_array] at hv

/-- Witness for C8 at the non-array value `Null` with two distinct transforms. -/
theorem slice_project_refines_witness :
    Value.null.slice_project JMESSlice.default (fun v => v) = .null ∧
    Value.null.slice_project JMESSlice.default (fun v => v) =
      Value.null.slice_project JMESSlice.default (fun _ => Value.num 7) :=
  slice_project_refines.2 Value.null JMESSlice.default (fun v => v) (fun _ => Value.num 7) rfl

/-- C9: object projection discards the keys, maps the transform over the entry
values in iteration order, drops the `Null` results and always materializes an
array; on the operations fixture only the two `numArgs` values survive. -/
theorem object_project_values_drop_null :
    (∀ (entries : List (String × Value)) (f : Value → Value),
      Value.object_project (.obj entries) f =
        .arr (((entries.map Prod.snd).map f).filter (fun r => decide (r ≠ Value.null)))) ∧
    ops_fixture.object_project (fun v => v.identify "numArgs") = .arr [.num 2, .num 3] := by
  constructor
  · intro entries f
    exact congrArg Value.arr (List.filter_congr (fun x _ => not_is_null_eq_decide x))
  · rfl

/-- C10: identify returns the entry's value when the object contains the key
and `Null` when it is absent or the input is not an object; no error is ever
signaled, so absence and type mismatch both surface as `Null`. -/
theorem identify_key_lookup :
    (∀ (entries : List (String × Value)) (key : String) (v : Value),
      entries.lookup key = some v → Value.identify (.obj entries) key = v) ∧
    (∀ (entries : List (String × Value)) (key : String),
      entries.lookup key = none → Value.identify (.obj entries) key = .null) ∧
    (∀ (v : Value) (key : String), v.is_object = false → v.identify key = .null) ∧
    flatmap.identify "a" = .str "foo" ∧ flatmap.identify "d" = .null := by
  refine ⟨?_, ?_, ?_, rfl, rfl⟩
  · intro entries key v h
    show (entries.lookup key).getD .null = v
    rw [h]
    rfl
  · intro entries key h
    show (entries.lookup key).getD .null = .null
    rw [h]
    rfl
  · intro v key hv
    cases v <;> first | rfl | simp [Value.is_object] at hv

/-- C2: index resolves a negative `i` to offset `length + i` and a non-negative
`i` to itself, returning the element when the resolved offset lies in
`[0, length)` and `Null` otherwise (underflow of the rear subtraction included);
verified also on the `["a".."f"]` fixture. -/
theorem index_rear_addressing :
    (∀ (l : List Value) (i : Int),
      Value.index (.arr l) i =
        if 0 ≤ (if i < 0 then (l.length : Int) + i else i) ∧
            (if i < 0 then (l.length : Int) + i else i) < (l.length : Int)
        then (l.get? ((if i < 0 then (l.length : Int) + i else i)).toNat).getD .null
        else .null) ∧
    array_fixture.index 1 = .str "b" ∧ array_fixture.index (-1) = .str "f" ∧
    array_fixture.index 10 = .null ∧ array_fixture.index (-10) = .null := by
  refine ⟨?_, rfl, rfl, rfl, rfl⟩
  intro l i
  by_cases hi : i < 0
  · by_cases hle : i.natAbs ≤ l.length
    · simp only [Value.index, if_pos hi, if_pos hle]
      have h1 : l.length - i.natAbs < l.length := by omega
      have h4 : l.length - i.natAbs = ((l.length : Int) + i).toNat := by omega
      rw [if_pos h1,
        if_pos (show 0 ≤ (l.length : Int) + i ∧ (l.length : Int) + i < (l.length : Int) by omega),
        h4]
    · simp only [Value.index, if_pos hi, if_neg hle]
      rw [if_neg
        (show ¬(0 ≤ (l.length : Int) + i ∧ (l.length : Int) + i < (l.length : Int)) by omega)]
  · simp only [Value.index, if_neg hi]
    by_cases hlt : i.natAbs < l.length
    · have h4 : i.natAbs = i.toNat := by omega
      rw [if_pos hlt, if_pos (show 0 ≤ i ∧ i < (l.length : Int) by omega), h4]
    · rw [if_neg hlt, if_neg (show ¬(0 ≤ i ∧ i < (l.length : Int)) by omega)]

/-- C1: slicing follows Python-style stride semantics. The seven literal
examples of the spec hold on `[0,1,2,3]`; an absent step behaves as step 1; a
start-only slice drops the rear-resolved, boundary-clamped start prefix; an
end-only slice keeps the rear-resolved, boundary-clamped prefix; and the
all-default step `-1` slice traverses from the last element down to the first,
reversing the array. -/
theorem slice_python_stride :
    (sliceLit "0:4:1" slice_example = some (.arr [.num 0, .num 1, .num 2, .num 3])) ∧
    (sliceLit "0:3" slice_example = some (.arr [.num 0, .num 1, .num 2])) ∧
    (sliceLit ":2" slice_example = some (.arr [.num 0, .num 1])) ∧
    (sliceLit "::2" slice_example = some (.arr [.num 0, .num 2])) ∧
    (sliceLit "::-1" slice_example = some (.arr [.num 3, .num 2, .num 1, .num 0])) ∧
    (sliceLit "-2:" slice_example = some (.arr [.num 2, .num 3])) ∧
    (sliceLit "100::-1" slice_example = some (.arr [.num 3, .num 2, .num 1, .num 0])) ∧
    (∀ (l : List Value) (st en : Option Int),
      Value.slice (.arr l) ⟨st, en, none⟩ = Value.slice (.arr l) ⟨st, en, some ⟨1, by decide⟩⟩) ∧
    (∀ (l : List Value) (n : Int),
      Value.slice (.arr l) ⟨some n, none, none⟩ =
        .arr (l.drop ((if n < 0 then (l.length : Int) + n else n).toNat))) ∧
    (∀ (l : List Value) (n : Int),
      Value.slice (.arr l) ⟨none, some n, none⟩ =
        .arr (l.take ((if n < 0 then (l.length : Int) + n else n).toNat))) ∧
    (∀ (l : List Value),
      Value.slice (.arr l) ⟨none, none, some ⟨-1, by decide⟩⟩ = .arr l.reverse) := by
  refine ⟨rfl, rfl, rfl, rfl, rfl, rfl, rfl, fun l st en => rfl, ?_, ?_, fun l => ?_⟩
  · intro l n
    rw [show Value.slice (.arr l) ⟨some n, none, none⟩ =
        .arr (slyce_apply (toIndex (some n)) Index.default none l) from rfl,
      slyce_apply_one_drop_take l (toIndex (some n)) Index.default,
      show resolveBound l.length false (l.length : Int) Index.default = (l.length : Int) from rfl,
      Int.toNat_natCast, List.take_length]
    by_cases hn : n < 0
    · rw [show toIndex (some n) = .tail n.natAbs by simp [toIndex, hn]]
      simp only [resolveBound, Bool.false_eq_true, if_false]
      rw [if_pos hn]
      by_cases hc : (l.length : Int) - n.natAbs < 0
      · rw [if_pos hc, show ((0 : Int)).toNat = 0 from rfl,
          show ((l.length : Int) + n).toNat = 0 by omega]
      · rw [if_neg hc, show ((l.length : Int) - n.natAbs).toNat = ((l.length : Int) + n).toNat
          by omega]
    · rw [show toIndex (some n) = .head n.natAbs by simp [toIndex, hn]]
      simp only [resolveBound, Bool.false_eq_true, if_false]
      rw [if_neg hn]
      by_cases hc : (l.length : Int) ≤ (n.natAbs : Int)
      · rw [if_pos hc, Int.toNat_natCast,
          List.drop_eq_nil_of_le (le_refl l.length),
          List.drop_eq_nil_of_le (show l.length ≤ n.toNat by omega)]
      · rw [if_neg hc, show ((n.natAbs : Int)).toNat = n.toNat by omega]
  · intro l n
    rw [show Value.slice (.arr l) ⟨none, some n, none⟩ =
        .arr (slyce_apply Index.default (toIndex (some n)) none l) from rfl,
      slyce_apply_one_drop_take l Index.default (toIndex (some n)),
      show resolveBound l.length false 0 Index.default = (0 : Int) from rfl,
      show ((0 : Int)).toNat = 0 from rfl, List.drop_zero]
    by_cases hn : n < 0
    · rw [show toIndex (some n) = .tail n.natAbs by simp [toIndex, hn]]
      simp only [resolveBound, Bool.false_eq_true, if_false]
      rw [if_pos hn]
      by_cases hc : (l.length : Int) - n.natAbs < 0
      · rw [if_pos hc, show ((0 : Int)).toNat = 0 from rfl,
          show ((l.length : Int) + n).toNat = 0 by omega]
      · rw [if_neg hc, show ((l.length : Int) - n.natAbs).toNat = ((l.length : Int) + n).toNat
          by omega]
    · rw [show toIndex (some n) = .head n.natAbs by simp [toIndex, hn]]
      simp only [resolveBound, Bool.false_eq_true, if_false]
      rw [if_neg hn]
      by_cases hc : (l.length : Int) ≤ (n.natAbs : Int)
      · rw [if_pos hc, Int.toNat_natCast,
          List.take_of_length_le (le_refl l.length),
          List.take_of_length_le (show l.length ≤ n.toNat by omega)]
      · rw [if_neg hc, show ((n.natAbs : Int)).toNat = n.toNat by omega]
  · rw [show Value.slice (.arr l) ⟨none, none, some ⟨-1, by decide⟩⟩ =
        .arr (slyce_apply Index.default Index.default (some (-1)) l) from rfl,
      slyce_apply_neg_one_rev]

/-- Witness for C10 on a concrete one-entry object: a present key, an absent
key, and a non-object input. -/
theorem identify_key_lookup_witness :
    Value.identify (.obj [("k", .num 5)]) "k" = .num 5 ∧
    Value.identify (.obj [("k", .num 5)]) "x" = .null ∧
    Value.identify (.num 5) "k" = .null :=
  ⟨identify_key_lookup.1 [("k", .num 5)] "k" (.num 5) rfl,
   identify_key_lookup.2.1 [("k", .num 5)] "x" rfl,
   identify_key_lookup.2.2.1 (.num 5) "k" rfl⟩

end JmespathNative
